import Mathlib

/-!
# Verification of the `mnmncs` BIP-39 / BIP-32 key-derivation pipeline

A shallow embedding of the C sources (`cpto/cpto.c`, `sha256/sha256.c`,
`mnemonics.c`, `bip32_key_derivation.c`) over `List Nat` byte sequences
(every byte an arithmetic value below 256), together with reference
definitions written from the FIPS-180 / BIP-39 specification text where a
claim compares the code against the standard.

Machine integers are modelled as `Nat` with explicit reduction modulo
`2 ^ 32` / `2 ^ 64` at every point where the C arithmetic wraps.
-/

namespace Mnmncs

/-! ## SHA-256 primitives, from `cpto/cpto.c` (identical copy in
`sha256/sha256.c`) -/

/-- The modulus of C `uint32_t` arithmetic. -/
def M32 : Nat := 4294967296

/-- The modulus of C `uint64_t` arithmetic. -/
def M64 : Nat := 18446744073709551616

/-- Embedding of `rotr` from `cpto.c`: right rotation of a 32-bit value. -/
def rotr (value : Nat) (bits : Nat) : Nat :=
  (value >>> bits ||| value <<< (32 - bits)) % M32

/-- Embedding of `ch` from `cpto.c`; `~x` on `uint32_t` is `x XOR 0xFFFFFFFF`. -/
def ch (x y z : Nat) : Nat :=
  (x &&& y) ^^^ ((x ^^^ 4294967295) &&& z)

/-- Embedding of `maj` from `cpto.c`. -/
def maj (x y z : Nat) : Nat :=
  (x &&& y) ^^^ (x &&& z) ^^^ (y &&& z)

/-- Embedding of `sigma0` from `cpto.c`. -/
def sigma0 (x : Nat) : Nat := rotr x 2 ^^^ rotr x 13 ^^^ rotr x 22

/-- Embedding of `sigma1` from `cpto.c`. -/
def sigma1 (x : Nat) : Nat := rotr x 6 ^^^ rotr x 11 ^^^ rotr x 25

/-- Embedding of `gamma0` from `cpto.c`. -/
def gamma0 (x : Nat) : Nat := rotr x 7 ^^^ rotr x 18 ^^^ (x >>> 3)

/-- Embedding of `gamma1` from `cpto.c`. -/
def gamma1 (x : Nat) : Nat := rotr x 17 ^^^ rotr x 19 ^^^ (x >>> 10)

/-- The SHA-256 round constants `k[64]` from `cpto.c`. -/
def k256 : List Nat :=
  [0x428a2f98, 0x71374491, 0xb5c0fbcf, 0xe9b5dba5, 0x3956c25b, 0x59f111f1, 0x923f82a4, 0xab1c5ed5] ++
  [0xd807aa98, 0x12835b01, 0x243185be, 0x550c7dc3, 0x72be5d74, 0x80deb1fe, 0x9bdc06a7, 0xc19bf174] ++
  [0xe49b69c1, 0xefbe4786, 0x0fc19dc6, 0x240ca1cc, 0x2de92c6f, 0x4a7484aa, 0x5cb0a9dc, 0x76f988da] ++
  [0x983e5152, 0xa831c66d, 0xb00327c8, 0xbf597fc7, 0xc6e00bf3, 0xd5a79147, 0x06ca6351, 0x14292967] ++
  [0x27b70a85, 0x2e1b2138, 0x4d2c6dfc, 0x53380d13, 0x650a7354, 0x766a0abb, 0x81c2c92e, 0x92722c85] ++
  [0xa2bfe8a1, 0xa81a664b, 0xc24b8b70, 0xc76c51a3, 0xd192e819, 0xd6990624, 0xf40e3585, 0x106aa070] ++
  [0x19a4c116, 0x1e376c08, 0x2748774c, 0x34b0bcb5, 0x391c0cb3, 0x4ed8aa4a, 0x5b9cca4f, 0x682e6ff3] ++
  [0x748f82ee, 0x78a5636f, 0x84c87814, 0x8cc70208, 0x90befffa, 0xa4506ceb, 0xbef9a3f7, 0xc67178f2]

/-- The eight-word working state `h[8]` of the hash loops. -/
structure Hash8 where
  s0 : Nat
  s1 : Nat
  s2 : Nat
  s3 : Nat
  s4 : Nat
  s5 : Nat
  s6 : Nat
  s7 : Nat
deriving DecidableEq

/-- Initial SHA-256 state from `cpto.c`. -/
def iv256 : Hash8 :=
  ⟨0x6a09e667, 0xbb67ae85, 0x3c6ef372, 0xa54ff53a,
   0x510e527f, 0x9b05688c, 0x1f83d9ab, 0x5be0cd19⟩

/-- Message-schedule words `w[0..15]`: big-endian 32-bit loads of the block,
as in the `w[t] = block[t*4] << 24 | ...` loop of `cpto.c`. -/
def load32be (block : List Nat) (t : Nat) : Nat :=
  block.getD (t * 4) 0 <<< 24 ||| block.getD (t * 4 + 1) 0 <<< 16 |||
  block.getD (t * 4 + 2) 0 <<< 8 ||| block.getD (t * 4 + 3) 0

/-- The schedule-extension loop `w[t] = gamma1(w[t-2]) + w[t-7] + gamma0(w[t-15])
+ w[t-16]` of `cpto.c`, carried out on a most-recent-first accumulator. -/
def schedule256 (block : List Nat) : List Nat :=
  let w16 := (List.range 16).map (load32be block)
  let rev := (List.range 48).foldl
    (fun ws _ =>
      ((gamma1 (ws.getD 1 0) + ws.getD 6 0 + gamma0 (ws.getD 14 0) + ws.getD 15 0) % M32) :: ws)
    w16.reverse
  rev.reverse

/-- One iteration of the 64-round compression loop of `cpto.c`'s `sha256`. -/
def round256 (st : Hash8) (kw : Nat × Nat) : Hash8 :=
  let t1 := (st.s7 + sigma1 st.s4 + ch st.s4 st.s5 st.s6 + kw.1 + kw.2) % M32
  let t2 := (sigma0 st.s0 + maj st.s0 st.s1 st.s2) % M32
  ⟨(t1 + t2) % M32, st.s0, st.s1, st.s2, (st.s3 + t1) % M32, st.s4, st.s5, st.s6⟩

/-- Processing of one 64-byte block: schedule, 64 rounds, and the
`h[i] += ...` feed-forward of `cpto.c`. -/
def compress256 (h : Hash8) (block : List Nat) : Hash8 :=
  let w := schedule256 block
  let r := (k256.zip w).foldl round256 h
  ⟨(h.s0 + r.s0) % M32, (h.s1 + r.s1) % M32, (h.s2 + r.s2) % M32, (h.s3 + r.s3) % M32,
   (h.s4 + r.s4) % M32, (h.s5 + r.s5) % M32, (h.s6 + r.s6) % M32, (h.s7 + r.s7) % M32⟩

/-- One 32-bit state word to four big-endian bytes, as in the
`hash[i*4] = (h[i] >> 24) & 0xFF; ...` output loop. -/
def word32be (x : Nat) : List Nat :=
  [x >>> 24 &&& 255, x >>> 16 &&& 255, x >>> 8 &&& 255, x &&& 255]

/-- The final big-endian serialization of the eight state words. -/
def digest256 (h : Hash8) : List Nat :=
  word32be h.s0 ++ word32be h.s1 ++ word32be h.s2 ++ word32be h.s3 ++
  word32be h.s4 ++ word32be h.s5 ++ word32be h.s6 ++ word32be h.s7

/-- The eight-byte big-endian bit-length field written by the
`block[56 + j] = (bit_len >> (56 - j * 8)) & 0xFF` loop. -/
def be64 (x : Nat) : List Nat :=
  [x >>> 56 &&& 255, x >>> 48 &&& 255, x >>> 40 &&& 255, x >>> 32 &&& 255,
   x >>> 24 &&& 255, x >>> 16 &&& 255, x >>> 8 &&& 255, x &&& 255]

/-- Embedding of `sha256` from `cpto.c` / `sha256.c`, by the observable behaviour of its
single `for (i = 0; i <= len; i++)` loop:

* every full 64-byte block is compressed as gathered;
* when the data ends exactly at a block boundary of a non-empty message
  (`i == len` with `block_len == 64`) the full block is compressed **raw** and
  the loop exits — no `0x80` marker and no length field are ever appended;
* otherwise the tail of `r = len % 64` bytes is zero-padded with a `0x80`
  marker at position `r`, and the 8-byte bit length overwrites bytes `56..63`
  only when `block_len <= 56` (for `r = 56` this destroys the marker, for
  `r > 56` the length is never written). -/
def sha256 (m : List Nat) : List Nat :=
  let bitLen := m.length * 8 % M64
  let full := m.length / 64
  let r := m.length % 64
  if m.length ≠ 0 ∧ r = 0 then
    digest256 ((List.range full).foldl
      (fun h i => compress256 h ((m.drop (64 * i)).take 64)) iv256)
  else
    let st := (List.range full).foldl
      (fun h i => compress256 h ((m.drop (64 * i)).take 64)) iv256
    let padded := m.drop (64 * full) ++ 0x80 :: List.replicate (63 - r) 0
    let blk := if r ≤ 56 then padded.take 56 ++ be64 bitLen else padded
    digest256 (compress256 st blk)

/-- Modelled from the spec: the FIPS-180 SHA-256 padding rule — append `0x80`,
zero-pad so the message plus the 8-byte big-endian bit length fills a whole
number of 64-byte blocks (an extra all-padding block when the data length is
an exact multiple of the block size), then compress every block.  The round
function is shared with the implementation; only the padding differs. -/
def sha256_fips (m : List Nat) : List Nat :=
  let bitLen := m.length * 8 % M64
  let z := (64 - (m.length + 9) % 64) % 64
  let padded := m ++ 0x80 :: List.replicate z 0 ++ be64 bitLen
  digest256 ((List.range (padded.length / 64)).foldl
    (fun h i => compress256 h ((padded.drop (64 * i)).take 64)) iv256)

/-! ## SHA-512, HMAC-SHA512 and PBKDF2-HMAC-SHA512, from `cpto/cpto.c` -/

/-- Embedding of `rotr64` from `cpto.c`. -/
def rotr64 (x : Nat) (n : Nat) : Nat :=
  (x >>> n ||| x <<< (64 - n)) % M64

/-- Embedding of `ch64` from `cpto.c`; `~x` on `uint64_t` is `x XOR (2^64 - 1)`. -/
def ch64 (x y z : Nat) : Nat :=
  (x &&& y) ^^^ ((x ^^^ 18446744073709551615) &&& z)

/-- Embedding of `maj64` from `cpto.c`. -/
def maj64 (x y z : Nat) : Nat :=
  (x &&& y) ^^^ (x &&& z) ^^^ (y &&& z)

/-- Embedding of `sigma0_64` from `cpto.c`. -/
def sigma0_64 (x : Nat) : Nat := rotr64 x 28 ^^^ rotr64 x 34 ^^^ rotr64 x 39

/-- Embedding of `sigma1_64` from `cpto.c`. -/
def sigma1_64 (x : Nat) : Nat := rotr64 x 14 ^^^ rotr64 x 18 ^^^ rotr64 x 41

/-- Embedding of `gamma0_64` from `cpto.c`. -/
def gamma0_64 (x : Nat) : Nat := rotr64 x 1 ^^^ rotr64 x 8 ^^^ (x >>> 7)

/-- Embedding of `gamma1_64` from `cpto.c`. -/
def gamma1_64 (x : Nat) : Nat := rotr64 x 19 ^^^ rotr64 x 61 ^^^ (x >>> 6)

/-- The SHA-512 round constants `k512[80]` from `cpto.c`. -/
def k512 : List Nat :=
  [0x428a2f98d728ae22, 0x7137449123ef65cd, 0xb5c0fbcfec4d3b2f, 0xe9b5dba58189dbbc, 0x3956c25bf348b538, 0x59f111f1b605d019, 0x923f82a4af194f9b, 0xab1c5ed5da6d8118] ++
  [0xd807aa98a3030242, 0x12835b0145706fbe, 0x243185be4ee4b28c, 0x550c7dc3d5ffb4e2, 0x72be5d74f27b896f, 0x80deb1fe3b1696b1, 0x9bdc06a725c71235, 0xc19bf174cf692694] ++
  [0xe49b69c19ef14ad2, 0xefbe4786384f25e3, 0x0fc19dc68b8cd5b5, 0x240ca1cc77ac9c65, 0x2de92c6f592b0275, 0x4a7484aa6ea6e483, 0x5cb0a9dcbd41fbd4, 0x76f988da831153b5] ++
  [0x983e5152ee66dfab, 0xa831c66d2db43210, 0xb00327c898fb213f, 0xbf597fc7beef0ee4, 0xc6e00bf33da88fc2, 0xd5a79147930aa725, 0x06ca6351e003826f, 0x142929670a0e6e70] ++
  [0x27b70a8546d22ffc, 0x2e1b21385c26c926, 0x4d2c6dfc5ac42aed, 0x53380d139d95b3df, 0x650a73548baf63de, 0x766a0abb3c77b2a8, 0x81c2c92e47edaee6, 0x92722c851482353b] ++
  [0xa2bfe8a14cf10364, 0xa81a664bbc423001, 0xc24b8b70d0f89791, 0xc76c51a30654be30, 0xd192e819d6ef5218, 0xd69906245565a910, 0xf40e35855771202a, 0x106aa07032bbd1b8] ++
  [0x19a4c116b8d2d0c8, 0x1e376c085141ab53, 0x2748774cdf8eeb99, 0x34b0bcb5e19b48a8, 0x391c0cb3c5c95a63, 0x4ed8aa4ae3418acb, 0x5b9cca4f7763e373, 0x682e6ff3d6b2b8a3] ++
  [0x748f82ee5defb2fc, 0x78a5636f43172f60, 0x84c87814a1f0ab72, 0x8cc702081a6439ec, 0x90befffa23631e28, 0xa4506cebde82bde9, 0xbef9a3f7b2c67915, 0xc67178f2e372532b] ++
  [0xca273eceea26619c, 0xd186b8c721c0c207, 0xeada7dd6cde0eb1e, 0xf57d4f7fee6ed178, 0x06f067aa72176fba, 0x0a637dc5a2c898a6, 0x113f9804bef90dae, 0x1b710b35131c471b] ++
  [0x28db77f523047d84, 0x32caab7b40c72493, 0x3c9ebe0a15c9bebc, 0x431d67c49c100d4c, 0x4cc5d4becb3e42b6, 0x597f299cfc657e2a, 0x5fcb6fab3ad6faec, 0x6c44198c4a475817]

/-- Initial SHA-512 state from `cpto.c`. -/
def iv512 : Hash8 :=
  ⟨0x6a09e667f3bcc908, 0xbb67ae8584caa73b, 0x3c6ef372fe94f82b, 0xa54ff53a5f1d36f1,
   0x510e527fade682d1, 0x9b05688c2b3e6c1f, 0x1f83d9abfb41bd6b, 0x5be0cd19137e2179⟩

/-- Big-endian 64-bit loads of a 128-byte block, as in the
`w[t] = (uint64_t)block[t*8] << 56 | ...` loops of `cpto.c`. -/
def load64be (block : List Nat) (t : Nat) : Nat :=
  block.getD (t * 8) 0 <<< 56 ||| block.getD (t * 8 + 1) 0 <<< 48 |||
  block.getD (t * 8 + 2) 0 <<< 40 ||| block.getD (t * 8 + 3) 0 <<< 32 |||
  block.getD (t * 8 + 4) 0 <<< 24 ||| block.getD (t * 8 + 5) 0 <<< 16 |||
  block.getD (t * 8 + 6) 0 <<< 8 ||| block.getD (t * 8 + 7) 0

/-- The SHA-512 message-schedule loop of `cpto.c`. -/
def schedule512 (block : List Nat) : List Nat :=
  let w16 := (List.range 16).map (load64be block)
  let rev := (List.range 64).foldl
    (fun ws _ =>
      ((gamma1_64 (ws.getD 1 0) + ws.getD 6 0 + gamma0_64 (ws.getD 14 0) + ws.getD 15 0) % M64)
        :: ws)
    w16.reverse
  rev.reverse

/-- One iteration of the 80-round SHA-512 compression loop of `cpto.c`. -/
def round512 (st : Hash8) (kw : Nat × Nat) : Hash8 :=
  let t1 := (st.s7 + sigma1_64 st.s4 + ch64 st.s4 st.s5 st.s6 + kw.1 + kw.2) % M64
  let t2 := (sigma0_64 st.s0 + maj64 st.s0 st.s1 st.s2) % M64
  ⟨(t1 + t2) % M64, st.s0, st.s1, st.s2, (st.s3 + t1) % M64, st.s4, st.s5, st.s6⟩

/-- Processing of one 128-byte block of `cpto.c`'s `sha512`. -/
def compress512 (h : Hash8) (block : List Nat) : Hash8 :=
  let w := schedule512 block
  let r := (k512.zip w).foldl round512 h
  ⟨(h.s0 + r.s0) % M64, (h.s1 + r.s1) % M64, (h.s2 + r.s2) % M64, (h.s3 + r.s3) % M64,
   (h.s4 + r.s4) % M64, (h.s5 + r.s5) % M64, (h.s6 + r.s6) % M64, (h.s7 + r.s7) % M64⟩

/-- One 64-bit state word to eight big-endian bytes, as in the output loop of
`cpto.c`'s `sha512`. -/
def word64be (x : Nat) : List Nat :=
  [x >>> 56 &&& 255, x >>> 48 &&& 255, x >>> 40 &&& 255, x >>> 32 &&& 255,
   x >>> 24 &&& 255, x >>> 16 &&& 255, x >>> 8 &&& 255, x &&& 255]

/-- Serialization of the eight 64-bit state words. -/
def digest512 (h : Hash8) : List Nat :=
  word64be h.s0 ++ word64be h.s1 ++ word64be h.s2 ++ word64be h.s3 ++
  word64be h.s4 ++ word64be h.s5 ++ word64be h.s6 ++ word64be h.s7

/-- The all-zero padding block carrying only the 128-bit length field that
`cpto.c`'s `sha512` emits after resetting `block_len` to zero: bytes
`0..111` are zero, bytes `112..119` hold `bit_len_high = 0`, bytes
`120..127` hold `bit_len_low`. -/
def lenBlock512 (bitLen : Nat) : List Nat :=
  List.replicate 112 0 ++ be64 0 ++ be64 bitLen

/-- Embedding of `sha512` from `cpto.c`, by the observable behaviour of its block loop.

Whenever `block_len` reaches 128 **inside** the data (`i < len`), the raw
block is compressed and — because `block_len` is then zero and the second
`if (block_len <= block_size - 16)` is not an `else` — an additional
all-padding block carrying the total bit length is compressed as well.  The
final partial block of `r = len % 128` bytes receives the `0x80` marker and
either fits the 16-byte length field (`r + 1 ≤ 112`) or is flushed first and
followed by the same all-padding length block.

(For a non-empty message whose length is an exact multiple of 128 the C code
writes `block[128]`, out of bounds — undefined behaviour; the model extends
that case arbitrarily by the `r = 0` branch below.  No call in this
repository reaches it.) -/
def sha512 (m : List Nat) : List Nat :=
  let bitLen := m.length * 8 % M64
  let full := m.length / 128
  let r := m.length % 128
  let st := (List.range full).foldl
    (fun h i => compress512 (compress512 h ((m.drop (128 * i)).take 128)) (lenBlock512 bitLen))
    iv512
  let t := m.drop (128 * full)
  if r + 1 > 112 then
    digest512 (compress512
      (compress512 st (t ++ 0x80 :: List.replicate (128 - (r + 1)) 0)) (lenBlock512 bitLen))
  else
    digest512 (compress512 st (t ++ 0x80 :: List.replicate (112 - (r + 1)) 0 ++ be64 0 ++ be64 bitLen))

/-- Embedding of `hmac_sha512` from `cpto.c`: a 128-byte key block (zero-padded, or the
`sha512` of an over-long key), XOR pads `0x5c` / `0x36`, inner and outer
`sha512` calls. -/
def hmac_sha512 (key data : List Nat) : List Nat :=
  let k := if key.length > 128 then sha512 key ++ List.replicate 64 0
           else key ++ List.replicate (128 - key.length) 0
  let o_key_pad := k.map (fun b => b ^^^ 0x5c)
  let i_key_pad := k.map (fun b => b ^^^ 0x36)
  sha512 (o_key_pad ++ sha512 (i_key_pad ++ data))

/-- The inner `for (i = 1; i < iterations; i++)` loop of
`pbkdf2_hmac_sha512`: `n` remaining iterations, current `U`, accumulated `T`
(XORed byte-wise). -/
def pbkdf2_iter (password : List Nat) : Nat → List Nat → List Nat → List Nat
  | 0, _, T => T
  | n + 1, U, T =>
    let U2 := hmac_sha512 password U
    pbkdf2_iter password n U2 (List.zipWith (fun a b => a ^^^ b) T U2)

/-- One `T` block of `pbkdf2_hmac_sha512`: `U1 = HMAC(password, salt ‖ be32 i)`
then `iterations - 1` further HMAC/XOR rounds.  The C `for` loop starting at
`i = 1` runs `iterations - 1` times — and **zero** times when
`iterations = 0`, exactly as the truncated subtraction does here. -/
def pbkdf2_T (password salt : List Nat) (counter iterations : Nat) : List Nat :=
  let U1 := hmac_sha512 password
    (salt ++ [counter >>> 24 &&& 255, counter >>> 16 &&& 255, counter >>> 8 &&& 255, counter &&& 255])
  pbkdf2_iter password (iterations - 1) U1 U1

/-- The `while (output_len > 0)` loop of `pbkdf2_hmac_sha512`; `fuel` only
bounds the recursion and is instantiated with `output_len` itself, which the
loop decreases by at least one byte per pass. -/
def pbkdf2_go (password salt : List Nat) (iterations : Nat) :
    Nat → Nat → Nat → List Nat
  | 0, _, _ => []
  | fuel + 1, counter, outputLen =>
    if outputLen = 0 then []
    else
      let T := pbkdf2_T password salt counter iterations
      let toCopy := min outputLen 64
      T.take toCopy ++ pbkdf2_go password salt iterations fuel (counter + 1) (outputLen - toCopy)

/-- Embedding of `pbkdf2_hmac_sha512` from `cpto.c`.  The function performs no validation
of `iterations`; the 4-byte counter starts at 1. -/
def pbkdf2_hmac_sha512 (password salt : List Nat) (iterations outputLen : Nat) : List Nat :=
  pbkdf2_go password salt iterations outputLen 1 outputLen

/-! ## Base58 encoding, from `bip32_key_derivation.c` -/

/-- The Base58 alphabet string of `base58_encode`. -/
def b58Alphabet : List Char :=
  "123456789ABCDEFGHJKLMNPQRSTUVWXYZabcdefghijkmnopqrstuvwxyz".toList

/-- One pass of the inner `for (k = output_size - 1; ...)` loop of
`base58_encode`: the whole digit buffer (least-significant digit last) is
multiplied by 256 and the incoming byte added, propagating the carry from the
last position to the first.  (The C loop always visits every position; the
final carry is zero because the buffer is sized at `input_len * 138 / 100 + 1`
digits.) -/
def b58MulAdd (byte : Nat) (buffer : List Nat) : List Nat :=
  (buffer.foldr
    (fun d acc =>
      let c := acc.1 + 256 * d
      (c / 58, c % 58 :: acc.2))
    (byte, [])).2

/-- Embedding of `base58_encode` from `bip32_key_derivation.c`: count leading zero bytes,
convert the remainder through the digit buffer, skip leading zero digits,
then emit one `'1'` per leading zero byte followed by the alphabet-mapped
digits. -/
def base58_encode (input : List Nat) : List Char :=
  let zeros := (input.takeWhile (· == 0)).length
  let outputSize := input.length * 138 / 100 + 1
  let buffer := (input.drop zeros).foldl (fun buf b => b58MulAdd b buf)
    (List.replicate outputSize 0)
  List.replicate zeros '1' ++ (buffer.dropWhile (· == 0)).map (b58Alphabet.getD · ' ')

/-! ## BIP-32 master-key derivation and formatting, from
`bip32_key_derivation.c` -/

/-- The error codes of `bip32_key_derivation.c`'s `enum`. -/
inductive Bip32Error where
  | invalidInput
  | invalidLength
  | internal
deriving DecidableEq

/-- The byte values of the ASCII string `"Bitcoin seed"` (`BIP32_KEY`). -/
def bitcoinSeedKey : List Nat := [66, 105, 116, 99, 111, 105, 110, 32, 115, 101, 101, 100]

/-- Embedding of `derive_bip32_master_key` from `bip32_key_derivation.c`: rejects any seed
whose length is not `BIP39_SEED_LENGTH = 64` with `ERROR_INVALID_LENGTH`,
otherwise splits `hmac_sha512("Bitcoin seed", seed)` into the 32-byte private
key and the 32-byte chain code. -/
def derive_bip32_master_key (seed : List Nat) : Except Bip32Error (List Nat × List Nat) :=
  if seed.length ≠ 64 then .error .invalidLength
  else
    let master_key := hmac_sha512 bitcoinSeedKey seed
    .ok (master_key.take 32, master_key.drop 32)

/-- Embedding of `private_key_to_wif` from `bip32_key_derivation.c`: version byte `0x80`,
the 32-byte key, the first four bytes of the double SHA-256 checksum, then
Base58. -/
def private_key_to_wif (private_key : List Nat) : List Char :=
  let versioned_key := 0x80 :: private_key
  let checksum := sha256 (sha256 versioned_key)
  base58_encode (versioned_key ++ checksum.take 4)

/-- Embedding of `generate_xprv` from `bip32_key_derivation.c`: the 82-byte record
`version(4) ‖ zeros(9) ‖ chain code(32) ‖ 0x00 ‖ private key(32) ‖
checksum(4)`, then Base58. -/
def generate_xprv (private_key chain_code : List Nat) : List Char :=
  let xprv_raw := [0x04, 0x88, 0xAD, 0xE4] ++ List.replicate 9 0 ++
    chain_code ++ 0x00 :: private_key
  let checksum := sha256 (sha256 xprv_raw)
  base58_encode (xprv_raw ++ checksum.take 4)

/-- One hexadecimal digit, as accepted by `sscanf("%2hhx")` in `hex_to_bin`. -/
def hexDigit (c : Char) : Option Nat :=
  if '0' ≤ c ∧ c ≤ '9' then some (c.toNat - 48)
  else if 'a' ≤ c ∧ c ≤ 'f' then some (c.toNat - 87)
  else if 'A' ≤ c ∧ c ≤ 'F' then some (c.toNat - 55)
  else none

/-- The digit-pair loop of `hex_to_bin`. -/
def hexPairs : List Char → Option (List Nat)
  | [] => some []
  | [_] => none
  | c1 :: c2 :: rest =>
    match hexDigit c1, hexDigit c2, hexPairs rest with
    | some hi, some lo, some bs => some ((16 * hi + lo) :: bs)
    | _, _, _ => none

/-- Embedding of `hex_to_bin` from `bip32_key_derivation.c`: the hex string must be exactly
`2 * bin_len` characters (`ERROR_INVALID_LENGTH`), every pair hexadecimal
(`ERROR_INVALID_INPUT`). -/
def hex_to_bin (hex : List Char) (bin_len : Nat) : Except Bip32Error (List Nat) :=
  if hex.length ≠ bin_len * 2 then .error .invalidLength
  else match hexPairs hex with
    | some bs => .ok bs
    | none => .error .invalidInput

/-- Embedding of `process_bip32_seed` from `bip32_key_derivation.c`, reduced to its
data path: decode the hex seed, derive the master key, format the xprv and
WIF strings (the console printing is dropped). -/
def process_bip32_seed (seed_hex : List Char) : Except Bip32Error (List Char × List Char) := do
  let seed ← hex_to_bin seed_hex 64
  let (private_key, chain_code) ← derive_bip32_master_key seed
  pure (generate_xprv private_key chain_code, private_key_to_wif private_key)

/-! ## BIP-39 mnemonic generation, from `mnemonics.c` -/

/-- Embedding of `entropy_to_index` from `mnemonics.c`: the `value = (value << 8) | chunk[i]`
loop reads exactly eleven bytes (each an `unsigned char`, hence the `% 256`)
into a big-endian `uint64_t` — wrapping at 64 bits after the eighth byte —
and reduces modulo `mnemonics_count`. -/
def entropy_to_index (chunk : List Nat) (mnemonics_count : Nat) : Nat :=
  ((List.range 11).foldl (fun value i => (value <<< 8 ||| chunk.getD i 0 % 256) % M64) 0)
    % mnemonics_count

/-- Embedding of `entropy_checksum_and_concat` from `mnemonics.c`: `checksum_bits =
length / 32` — a **byte** count, since `length` is the byte length of the
buffer — and that many leading bytes of `sha256(buffer)` are appended by
`concat_arrays`.  A zero-length buffer is returned unchanged (the invalid-
parameter early return). -/
def entropy_checksum_and_concat (buffer : List Nat) : List Nat :=
  if buffer.length = 0 then buffer
  else
    let hash := sha256 buffer
    let checksum_bits := buffer.length / 32
    buffer ++ hash.take checksum_bits

/-- Embedding of `generate_mnemonics` from `mnemonics.c`: requires `num_bytes` to be a
multiple of 11 and a non-empty wordlist (a `NULL` / empty read fails); then
each of the `num_bytes / 11` mnemonic words is the wordlist entry at
`entropy_to_index` of the corresponding 11-byte chunk.  The wordlist stands
for the lines `read_mnemonics` loads from the file; `none` is the `NULL`
return. -/
def generate_mnemonics (entropy : List Nat) (wordlist : List String) :
    Option (List String) :=
  if entropy.length % 11 ≠ 0 then none
  else if wordlist.length = 0 then none
  else some ((List.range (entropy.length / 11)).map (fun i =>
    wordlist.getD (entropy_to_index ((entropy.drop (i * 11)).take 11) wordlist.length) (String.mk [])))

/-- The mnemonic data path of `main` in `mnemonics.c`: checksum-extend the
entropy buffer, then generate the words. -/
def mnemonic_pipeline (entropy : List Nat) (wordlist : List String) :
    Option (List String) :=
  generate_mnemonics (entropy_checksum_and_concat entropy) wordlist

/-- Embedding of `is_valid_number` from `mnemonics.c`: the accepted entropy sizes. -/
def is_valid_number (num : Nat) : Bool :=
  128 ≤ num ∧ num ≤ 256 ∧ num % 32 = 0

/-! ## Reference definitions written from the specification text -/

/-- Big-endian bits of one byte. -/
def byteToBits (b : Nat) : List Nat :=
  [b / 128 % 2, b / 64 % 2, b / 32 % 2, b / 16 % 2, b / 8 % 2, b / 4 % 2, b / 2 % 2, b % 2]

/-- Big-endian bit stream of a byte sequence. -/
def bytesToBits : List Nat → List Nat
  | [] => []
  | b :: rest => byteToBits b ++ bytesToBits rest

/-- Modelled from the spec: the BIP-39 word index — the `i`-th successive
non-overlapping 11-bit big-endian group of the (entropy ‖ checksum) stream,
read as an unsigned integer in `[0, 2047]`. -/
def bip39_spec_index (stream : List Nat) (i : Nat) : Nat :=
  (((bytesToBits stream).drop (11 * i)).take 11).foldl (fun v b => 2 * v + b) 0

/-- The reference seed of the README transcript, as a hex string. -/
def refSeedHex : String :=
  "2f00201a843bf367ed45fda52ea0d3aba21ee730ad1a93189e67ae0e6faae4bb3a32629b955d1cfcde3becc25f2e39519e1e5d9ee8318c6217b11bcedb9f9683"

/-! ## Helper lemmas -/

theorem digest256_length (h : Hash8) : (digest256 h).length = 32 := by
  simp [digest256, word32be]

theorem sha256_length (m : List Nat) : (sha256 m).length = 32 := by
  simp only [sha256]
  split <;> simp [digest256_length]

theorem digest512_length (h : Hash8) : (digest512 h).length = 64 := by
  simp [digest512, word64be]

theorem sha512_length (m : List Nat) : (sha512 m).length = 64 := by
  simp only [sha512]
  split <;> simp [digest512_length]

theorem hmac_sha512_length (key data : List Nat) :
    (hmac_sha512 key data).length = 64 := by
  unfold hmac_sha512
  split <;> simp [sha512_length]

theorem entropy_checksum_and_concat_length (e : List Nat) (h : e.length ≠ 0) :
    (entropy_checksum_and_concat e).length = e.length + min (e.length / 32) 32 := by
  simp [entropy_checksum_and_concat, h, sha256_length]

theorem generate_mnemonics_count (entropy : List Nat) (wl : List String)
    (h1 : entropy.length % 11 = 0) (h2 : 0 < wl.length) :
    (generate_mnemonics entropy wl).map List.length = some (entropy.length / 11) := by
  simp [generate_mnemonics, h1, Nat.pos_iff_ne_zero.mp h2]

theorem pbkdf2_T_zero_eq_one (pw salt : List Nat) (c : Nat) :
    pbkdf2_T pw salt c 0 = pbkdf2_T pw salt c 1 := rfl

theorem pbkdf2_iter_length (pw : List Nat) :
    ∀ (n : Nat) (U T : List Nat), T.length = 64 → (pbkdf2_iter pw n U T).length = 64
  | 0, _, _, h => h
  | n + 1, U, T, h => by
    simp only [pbkdf2_iter]
    exact pbkdf2_iter_length pw n _ _ (by simp [h, hmac_sha512_length])

theorem pbkdf2_T_length (pw salt : List Nat) (c it : Nat) :
    (pbkdf2_T pw salt c it).length = 64 := by
  simp only [pbkdf2_T]
  exact pbkdf2_iter_length pw _ _ _ (hmac_sha512_length _ _)

theorem pbkdf2_go_length (pw salt : List Nat) (it : Nat) :
    ∀ (fuel c l : Nat), l ≤ fuel → (pbkdf2_go pw salt it fuel c l).length = l := by
  intro fuel
  induction fuel with
  | zero =>
    intro c l h
    have hz : l = 0 := by omega
    subst hz
    rfl
  | succ n ih =>
    intro c l h
    by_cases hl : l = 0
    · simp [pbkdf2_go, hl]
    · simp only [pbkdf2_go, if_neg hl]
      rw [List.length_append, List.length_take, pbkdf2_T_length,
        ih (c + 1) (l - min l 64) (by omega)]
      omega

theorem pbkdf2_go_zero_eq_one (pw salt : List Nat) :
    ∀ (fuel c l : Nat), pbkdf2_go pw salt 0 fuel c l = pbkdf2_go pw salt 1 fuel c l := by
  intro fuel
  induction fuel with
  | zero => intro c l; rfl
  | succ n ih =>
    intro c l
    by_cases hl : l = 0
    · simp [pbkdf2_go, hl]
    · simp only [pbkdf2_go, if_neg hl, pbkdf2_T_zero_eq_one, ih]

/-! ## Claim theorems -/

set_option maxRecDepth 1000000 in
/-- C1.  For the fixed 64-byte seed given by the reference hex string, the
code's full data path (hex decode, `derive_bip32_master_key` via its
`hmac_sha512` with key `"Bitcoin seed"`, then `generate_xprv` and
`private_key_to_wif`) yields exactly the WIF string
`5JbkdquZp2ddnnng1FAsdmRjZLiEdEtk3j6HwNL7iCaoZVrguzQ` and exactly the xprv
string
`xprv9s21ZrQH143K34sBvFpfdXVRV7hj5YXScWB3oSQBZuh74XLM1eYMZybGPy9eggeB92J2Ts7QGK5Z189k9xoopp5j1tBAfH7CEhbbdP5CDUH`. -/
theorem c1_reference_transcript_strings :
    process_bip32_seed refSeedHex.toList =
      .ok (("xprv9s21ZrQH143K34sBvFpfdXVRV7hj5YXScWB3oSQBZuh74XLM1eYMZybGPy9eggeB92J2Ts7QGK5Z189k9xoopp5j1tBAfH7CEhbbdP5CDUH").toList,
           ("5JbkdquZp2ddnnng1FAsdmRjZLiEdEtk3j6HwNL7iCaoZVrguzQ").toList) := by
  rfl

set_option maxRecDepth 100000 in
/-- C2.  The claim (every input is hashed to its FIPS-180 digest, in
particular inputs whose length is an exact positive multiple of 64, which
need an extra all-padding block) is right about the standard and wrong about
the code: on the 64-byte all-zero message the implementation compresses the
raw data block and never emits any padding or length block, so its output
differs from the FIPS-180 digest `f5a5fd42…` of that message.  On `"abc"`
(a length the padding logic does handle) the two agree. -/
theorem c2_sha256_block_multiple_bug :
    sha256 [0x61, 0x62, 0x63] = sha256_fips [0x61, 0x62, 0x63] ∧
    sha256 (List.replicate 64 0) ≠ sha256_fips (List.replicate 64 0) ∧
    sha256_fips (List.replicate 64 0) =
      [0xf5, 0xa5, 0xfd, 0x42, 0xd1, 0x6a, 0x20, 0x30, 0x27, 0x98, 0xef, 0x6e, 0xd3, 0x09, 0x97, 0x9b,
       0x43, 0x00, 0x3d, 0x23, 0x20, 0xd9, 0xf0, 0xe8, 0xea, 0x98, 0x31, 0xa9, 0x27, 0x59, 0xfb, 0x4b] := by
  refine ⟨by decide, by decide, by decide⟩

set_option maxRecDepth 100000 in
/-- C7, counterexample.  With `iterations = 0` the code does not fail with
any `InvalidParameter`: it produces the full 64 requested bytes of key
material (identical to one iteration, the first HMAC being computed before
the iteration loop is entered). -/
theorem c7_zero_iterations_counterexample :
    (pbkdf2_hmac_sha512 [112] [115] 0 64).length = 64 ∧
    pbkdf2_hmac_sha512 [112] [115] 0 64 = pbkdf2_hmac_sha512 [112] [115] 1 64 := by
  refine ⟨by decide, by rfl⟩

/-- C7, amended.  `pbkdf2_hmac_sha512` performs no validation of the
iteration count: called with `iterations = 0` it returns exactly
`output_len` bytes of key material, byte-for-byte the output for
`iterations = 1` (the first HMAC of each block is computed before the
`for (i = 1; i < iterations)` loop, which runs zero times in both cases). -/
theorem c7_zero_iterations_yield_key_material (password salt : List Nat) (outputLen : Nat) :
    pbkdf2_hmac_sha512 password salt 0 outputLen = pbkdf2_hmac_sha512 password salt 1 outputLen ∧
    (pbkdf2_hmac_sha512 password salt 0 outputLen).length = outputLen :=
  ⟨pbkdf2_go_zero_eq_one password salt outputLen 1 outputLen,
   pbkdf2_go_length password salt 0 outputLen 1 outputLen (Nat.le_refl _)⟩

/-- C10.  `entropy_to_index` ends in a reduction modulo `mnemonics_count`,
so for every chunk and every strictly positive count the returned index is
strictly below the count — the `mnemonics[index]` lookup in
`generate_mnemonics` is in bounds for a wordlist of any non-zero size. -/
theorem c10_entropy_to_index_in_bounds (chunk : List Nat) (mnemonics_count : Nat)
    (h : 0 < mnemonics_count) :
    entropy_to_index chunk mnemonics_count < mnemonics_count :=
  Nat.mod_lt _ h

/-- Witness for C10 at a concrete chunk and count. -/
theorem c10_witness :
    0 < 3 ∧ entropy_to_index (List.replicate 11 0) 3 < 3 :=
  ⟨by decide, c10_entropy_to_index_in_bounds (List.replicate 11 0) 3 (by decide)⟩

theorem bytesToBits_append : ∀ (a b : List Nat),
    bytesToBits (a ++ b) = bytesToBits a ++ bytesToBits b
  | [], _ => rfl
  | x :: a, b => by
    simp only [List.cons_append, bytesToBits, List.append_eq, bytesToBits_append a b,
      List.append_assoc]

theorem bytesToBits_length : ∀ l : List Nat, (bytesToBits l).length = 8 * l.length
  | [] => rfl
  | x :: l => by
    simp only [bytesToBits, List.length_append, bytesToBits_length l, byteToBits,
      List.length_cons, List.length_nil]
    ring

theorem byteToBits_length (b : Nat) : (byteToBits b).length = 8 := by
  simp [byteToBits]

theorem bytesToBits_take : ∀ (l : List Nat) (k : Nat),
    bytesToBits (l.take k) = (bytesToBits l).take (8 * k)
  | [], k => by simp [bytesToBits]
  | x :: l, 0 => by simp [bytesToBits]
  | x :: l, k + 1 => by
    simp only [List.take_succ_cons, bytesToBits]
    rw [bytesToBits_take l k,
      show 8 * (k + 1) = (byteToBits x).length + 8 * k by rw [byteToBits_length]; ring,
      List.take_append]

/-- C5.  For every entropy buffer of a size accepted by `is_valid_number`
(the sizes the program validates), writing `L` for its bit length
`8 * length`, the bit stream of the checksum-extended buffer is exactly the
entropy bits followed by the leading `L / 32` bits of the buffer's `sha256`
digest, and its total bit length is `L + L / 32`.  (`checksum_bits =
length / 32` counts bytes, and `length / 32` bytes are `8 * length / 32 =
L / 32` bits precisely because the accepted sizes are multiples of 32.) -/
theorem c5_checksum_is_leading_hash_bits (e : List Nat)
    (hv : is_valid_number e.length = true) :
    bytesToBits (entropy_checksum_and_concat e) =
      bytesToBits e ++ (bytesToBits (sha256 e)).take (8 * e.length / 32) ∧
    (bytesToBits (entropy_checksum_and_concat e)).length = 8 * e.length + 8 * e.length / 32 := by
  have hb : 128 ≤ e.length ∧ e.length ≤ 256 ∧ e.length % 32 = 0 := by
    simpa [is_valid_number] using hv
  obtain ⟨h1, h2, h3⟩ := hb
  have hne : e.length ≠ 0 := by omega
  have hdiv : 8 * (e.length / 32) = 8 * e.length / 32 := by omega
  constructor
  · simp only [entropy_checksum_and_concat, if_neg hne]
    rw [bytesToBits_append, bytesToBits_take, hdiv]
  · simp only [entropy_checksum_and_concat, if_neg hne]
    rw [bytesToBits_length, List.length_append, List.length_take, sha256_length]
    omega

set_option maxRecDepth 400000 in
/-- Witness for C5 at the all-zero 128-byte entropy buffer. -/
theorem c5_witness :
    is_valid_number (List.replicate 128 0 : List Nat).length = true ∧
    bytesToBits (entropy_checksum_and_concat (List.replicate 128 0)) =
      bytesToBits (List.replicate 128 0) ++
        (bytesToBits (sha256 (List.replicate 128 0))).take
          (8 * (List.replicate 128 0 : List Nat).length / 32) :=
  ⟨by decide, (c5_checksum_is_leading_hash_bits (List.replicate 128 0) (by decide)).1⟩

/-- C6.  `derive_bip32_master_key` fails with `ERROR_INVALID_LENGTH` on every
seed that is not exactly 64 bytes; on every 64-byte seed it returns the first
32 bytes of `hmac_sha512` keyed by the ASCII bytes of `"Bitcoin seed"` over
the seed as the private key and the last 32 bytes as the chain code. -/
theorem c6_master_key_from_64_byte_seed (seed : List Nat) :
    (seed.length ≠ 64 → derive_bip32_master_key seed = .error .invalidLength) ∧
    (seed.length = 64 →
      derive_bip32_master_key seed =
        .ok ((hmac_sha512 bitcoinSeedKey seed).take 32,
             (hmac_sha512 bitcoinSeedKey seed).drop 32) ∧
      bitcoinSeedKey = ("Bitcoin seed").toList.map Char.toNat ∧
      ((hmac_sha512 bitcoinSeedKey seed).take 32).length = 32 ∧
      ((hmac_sha512 bitcoinSeedKey seed).drop 32).length = 32) := by
  constructor
  · intro h
    simp [derive_bip32_master_key, h]
  · intro h
    refine ⟨by simp [derive_bip32_master_key, h], by decide, ?_, ?_⟩
    · simp [List.length_take, hmac_sha512_length]
    · simp [List.length_drop, hmac_sha512_length]

set_option maxRecDepth 400000 in
/-- Witness for C6 at the all-zero 64-byte seed. -/
theorem c6_witness :
    (List.replicate 64 0 : List Nat).length = 64 ∧
    derive_bip32_master_key (List.replicate 64 0) =
      .ok ((hmac_sha512 bitcoinSeedKey (List.replicate 64 0)).take 32,
           (hmac_sha512 bitcoinSeedKey (List.replicate 64 0)).drop 32) :=
  ⟨by decide, ((c6_master_key_from_64_byte_seed (List.replicate 64 0)).2 (by decide)).1⟩

theorem mnemonic_pipeline_count (e : List Nat) (wl : List String) (hw : 0 < wl.length)
    (hne : e.length ≠ 0) (h11 : (e.length + min (e.length / 32) 32) % 11 = 0) :
    (mnemonic_pipeline e wl).map List.length =
      some ((e.length + min (e.length / 32) 32) / 11) := by
  have hc := entropy_checksum_and_concat_length e hne
  have hg := generate_mnemonics_count (entropy_checksum_and_concat e) wl
    (by rw [hc]; exact h11) hw
  rw [hc] at hg
  simpa [mnemonic_pipeline] using hg

/-- C8.  For entropy buffers of each of the five sizes the program accepts —
128, 160, 192, 224, 256 — the generated mnemonic has exactly 12, 15, 18, 21
and 24 words respectively (the checksum-extended buffer has
`size + size / 32` bytes, split into 11-byte chunks). -/
theorem c8_mnemonic_word_counts (e : List Nat) (wl : List String) (hw : 0 < wl.length) :
    (e.length = 128 → (mnemonic_pipeline e wl).map List.length = some 12) ∧
    (e.length = 160 → (mnemonic_pipeline e wl).map List.length = some 15) ∧
    (e.length = 192 → (mnemonic_pipeline e wl).map List.length = some 18) ∧
    (e.length = 224 → (mnemonic_pipeline e wl).map List.length = some 21) ∧
    (e.length = 256 → (mnemonic_pipeline e wl).map List.length = some 24) := by
  refine ⟨?_, ?_, ?_, ?_, ?_⟩ <;> intro h <;>
    [skip; skip; skip; skip; skip] <;>
  · have hpipe := mnemonic_pipeline_count e wl hw (by omega) (by rw [h]; decide)
    rw [h] at hpipe
    simpa using hpipe

set_option maxRecDepth 400000 in
/-- Witness for C8 at an all-zero 128-byte entropy buffer and a one-word
wordlist. -/
theorem c8_witness :
    0 < ([" "] : List String).length ∧
    ((List.replicate 128 0 : List Nat).length = 128 →
      (mnemonic_pipeline (List.replicate 128 0) [" "]).map List.length = some 12) :=
  ⟨by decide, (c8_mnemonic_word_counts (List.replicate 128 0) [" "] (by decide)).1⟩

theorem generate_mnemonics_eq (stream : List Nat) (wl : List String)
    (h11 : stream.length % 11 = 0) (hpos : 0 < wl.length) :
    generate_mnemonics stream wl =
      some ((List.range (stream.length / 11)).map (fun i =>
        wl.getD (entropy_to_index ((stream.drop (i * 11)).take 11) wl.length)
          (String.mk []))) := by
  simp [generate_mnemonics, h11, Nat.pos_iff_ne_zero.mp hpos]

/-- C3, counterexample.  With a three-word wordlist (entry count 3 ≠ 2048)
and a valid 11-byte stream, `generate_mnemonics` does not fail with any
`WordlistMismatch`: it succeeds, returning the word at the chunk value
reduced modulo 3 (here `5 % 3 = 2`, the third word). -/
theorem c3_small_wordlist_succeeds :
    generate_mnemonics [0, 0, 0, 0, 0, 0, 0, 0, 0, 0, 5] ["a", "b", "c"] =
      some ["c"] := by
  decide

/-- C3, amended.  `generate_mnemonics` performs no wordlist-size check at
all: for every wordlist with a non-zero entry count — 2048 or not — and every
stream whose byte length is a multiple of 11, generation succeeds with one
word per 11-byte chunk, each index being taken modulo the wordlist length by
`entropy_to_index`; failure (`NULL`) occurs only for an empty or unreadable
wordlist or a stream length that is not a multiple of 11. -/
theorem c3_no_wordlist_size_check (stream : List Nat) (wl : List String)
    (_hsz : wl.length ≠ 2048) (hpos : 0 < wl.length) (h11 : stream.length % 11 = 0) :
    ∃ words, generate_mnemonics stream wl = some words ∧
      words.length = stream.length / 11 := by
  refine ⟨(List.range (stream.length / 11)).map (fun i =>
      wl.getD (entropy_to_index ((stream.drop (i * 11)).take 11) wl.length) (String.mk [])),
    ?_, by simp⟩
  simp [generate_mnemonics, h11, Nat.pos_iff_ne_zero.mp hpos]

/-- Witness for C3 at an 11-byte stream and a three-word wordlist. -/
theorem c3_witness :
    ((["a", "b", "c"] : List String).length ≠ 2048 ∧
      0 < (["a", "b", "c"] : List String).length ∧
      (List.replicate 11 0 : List Nat).length % 11 = 0) ∧
    ∃ words, generate_mnemonics (List.replicate 11 0) ["a", "b", "c"] = some words ∧
      words.length = (List.replicate 11 0 : List Nat).length / 11 :=
  ⟨⟨by decide, by decide, by decide⟩,
   c3_no_wordlist_size_check (List.replicate 11 0) ["a", "b", "c"]
     (by decide) (by decide) (by decide)⟩

set_option maxRecDepth 40000 in
/-- C4, counterexample.  With a wordlist of exactly 2048 entries (three
distinct words followed by 2045 copies of a filler), the word generated for
the stream `00 20 00 … 00 02` is **not** the one at the first 11-bit
big-endian group of the stream: the 11-bit rule gives index
`0b00000000001 = 1` (word `"1"`), while the code folds the whole 11-byte
chunk into a `uint64_t` and reduces modulo 2048, giving index 2 (word
`"2"`). -/
theorem c4_byte_chunks_not_bit_groups :
    ((["0", "1", "2"] ++ List.replicate 2045 ("x" : String)) : List String).length = 2048 ∧
    bip39_spec_index [0, 32, 0, 0, 0, 0, 0, 0, 0, 0, 2] 0 = 1 ∧
    generate_mnemonics [0, 32, 0, 0, 0, 0, 0, 0, 0, 0, 2]
        (["0", "1", "2"] ++ List.replicate 2045 ("x" : String)) = some [("2" : String)] ∧
    (["0", "1", "2"] ++ List.replicate 2045 ("x" : String)).getD
        (bip39_spec_index [0, 32, 0, 0, 0, 0, 0, 0, 0, 0, 2] 0) (String.mk []) =
      ("1" : String) ∧
    ("2" : String) ≠ ("1" : String) := by
  have hwl : ((["0", "1", "2"] ++ List.replicate 2045 ("x" : String)) : List String).length = 2048 := by
    rw [List.length_append, List.length_replicate]
    rfl
  refine ⟨hwl, by decide, ?_, ?_, by decide⟩
  · rw [generate_mnemonics_eq _ _ (by decide) (by rw [hwl]; norm_num), hwl]
    rw [show ([0, 32, 0, 0, 0, 0, 0, 0, 0, 0, 2] : List Nat).length = 11 from rfl]
    rw [show (11 : Nat) / 11 = 1 from rfl]
    rw [show List.range 1 = [0] from rfl]
    simp only [List.map_cons, List.map_nil]
    rw [show entropy_to_index
        (List.take 11 (List.drop (0 * 11) [0, 32, 0, 0, 0, 0, 0, 0, 0, 0, 2])) 2048 = 2
      from by decide]
    rfl
  · rw [show bip39_spec_index [0, 32, 0, 0, 0, 0, 0, 0, 0, 0, 2] 0 = 1 from by decide]
    rfl

/-- C4, amended.  The `i`-th mnemonic word is selected by interpreting the
`i`-th successive non-overlapping 11-**byte** chunk of the stream as a
big-endian integer truncated to 64 bits and reduced modulo the wordlist
length (`entropy_to_index`), not by 11-bit groups. -/
theorem c4_word_from_byte_chunk (stream : List Nat) (wl : List String) (i : Nat)
    (h11 : stream.length % 11 = 0) (hpos : 0 < wl.length)
    (hi : i < stream.length / 11) :
    ∃ words, generate_mnemonics stream wl = some words ∧
      words.getD i (String.mk []) =
        wl.getD (entropy_to_index ((stream.drop (i * 11)).take 11) wl.length)
          (String.mk []) := by
  refine ⟨(List.range (stream.length / 11)).map (fun j =>
      wl.getD (entropy_to_index ((stream.drop (j * 11)).take 11) wl.length) (String.mk [])),
    ?_, ?_⟩
  · simp [generate_mnemonics, h11, Nat.pos_iff_ne_zero.mp hpos]
  · rw [List.getD_eq_getElem?_getD, List.getElem?_map, List.getElem?_range hi]
    rfl

/-- Witness for C4 at an 11-byte stream, a three-word wordlist and `i = 0`. -/
theorem c4_witness :
    ((List.replicate 11 0 : List Nat).length % 11 = 0 ∧
      0 < (["a", "b", "c"] : List String).length ∧
      0 < (List.replicate 11 0 : List Nat).length / 11) ∧
    ∃ words, generate_mnemonics (List.replicate 11 0) ["a", "b", "c"] = some words ∧
      words.getD 0 (String.mk []) =
        (["a", "b", "c"] : List String).getD
          (entropy_to_index ((List.replicate 11 0 : List Nat).take 11)
            (["a", "b", "c"] : List String).length) (String.mk []) := by
  refine ⟨⟨by decide, by decide, by decide⟩, ?_⟩
  have h := c4_word_from_byte_chunk (List.replicate 11 0) ["a", "b", "c"] 0
    (by decide) (by decide) (by decide)
  simpa using h

theorem b58MulAdd_mem_lt (b : Nat) : ∀ (buf : List Nat), ∀ x ∈ b58MulAdd b buf, x < 58 := by
  intro buf
  induction buf with
  | nil => intro x hx; simp [b58MulAdd] at hx
  | cons d rest ih =>
    intro x hx
    simp only [b58MulAdd, List.foldr_cons] at hx
    rcases List.mem_cons.mp hx with h | h
    · rw [h]
      exact Nat.mod_lt _ (by norm_num)
    · exact ih x h

theorem base58_fold_digits_lt (bytes : List Nat) : ∀ (buf : List Nat),
    (∀ x ∈ buf, x < 58) →
    ∀ x ∈ bytes.foldl (fun buf b => b58MulAdd b buf) buf, x < 58 := by
  induction bytes with
  | nil => intro buf h x hx; exact h x hx
  | cons b rest ih =>
    intro buf h x hx
    rw [List.foldl_cons] at hx
    exact ih (b58MulAdd b buf) (fun y hy => b58MulAdd_mem_lt b buf y hy) x hx

theorem dropWhile_beq_zero_head : ∀ (l : List Nat) (d : Nat) (rest : List Nat),
    l.dropWhile (· == 0) = d :: rest → d ≠ 0 := by
  intro l
  induction l with
  | nil => intro d rest h; simp [List.dropWhile] at h
  | cons a l ih =>
    intro d rest h
    rw [List.dropWhile_cons] at h
    by_cases ha : (a == 0) = true
    · rw [if_pos ha] at h
      exact ih d rest h
    · rw [if_neg ha] at h
      injection h with h1 _
      subst h1
      simpa using ha

theorem b58Alphabet_getD_ne_one : ∀ d : Nat, d < 58 → d ≠ 0 → b58Alphabet.getD d ' ' ≠ '1' := by
  decide

theorem b58_leading_ones_count (zeros : Nat) (buffer : List Nat) (hlt : ∀ x ∈ buffer, x < 58) :
    ((List.replicate zeros '1' ++
        (buffer.dropWhile (· == 0)).map (b58Alphabet.getD · ' ')).takeWhile (· == '1')).length
      = zeros := by
  rcases hd : buffer.dropWhile (· == 0) with _ | ⟨d, rest⟩
  · simp [List.takeWhile_replicate]
  · have hd0 : d ≠ 0 := dropWhile_beq_zero_head buffer d rest hd
    have hdlt : d < 58 := hlt d ((List.dropWhile_sublist _).subset (by
      rw [hd]; exact List.mem_cons_self d rest))
    have hchar : b58Alphabet.getD d ' ' ≠ '1' := b58Alphabet_getD_ne_one d hdlt hd0
    rw [List.takeWhile_append_of_pos (by
      intro x hx
      have := List.eq_of_mem_replicate hx
      simp [this])]
    simp only [List.map_cons]
    rw [List.takeWhile_cons_of_neg (by simpa using hchar)]
    simp

/-- C9.  `base58_encode` maps every all-zero `N`-byte buffer to exactly `N`
copies of `'1'`, and in general the leading-`'1'` run of the output has
exactly the length of the leading-zero run of the input: the conversion loop
operates only on the bytes after the zeros, leading zero digits of the digit
buffer are skipped, and the first retained digit is non-zero, so its alphabet
character is never `'1'`. -/
theorem c9_leading_zeros_map_to_ones (input : List Nat) (n : Nat) :
    base58_encode (List.replicate n 0) = List.replicate n '1' ∧
    ((base58_encode input).takeWhile (· == '1')).length =
      (input.takeWhile (· == 0)).length := by
  constructor
  · simp [base58_encode, List.takeWhile_replicate, List.dropWhile_replicate,
      List.drop_replicate]
  · simp only [base58_encode]
    exact b58_leading_ones_count _ _ (base58_fold_digits_lt _ _ (by
      intro x hx
      have := List.eq_of_mem_replicate hx
      omega))

end Mnmncs
